import Mathlib

/-!
# Verification of the minutes-converter segmentation and date-normalization pipeline

A shallow embedding of `src/minutes_to_jsonl.py`. Text is modelled as
`List Char`. The three pieces of the program with algorithmic content are
embedded from the source:

* `split_into_meetings` — `re.split(r"\n\s*(?:\*{3,}|-{3,}|Meeting:)\s*\n?", text)`
  followed by the strip-and-filter comprehension;
* `standardize_date` — the six `strptime` formats tried in order, then the
  manual `re.match(r"([A-Za-z]+)\s+(\d{1,2}),?\s+(\d{4})", ...)` fallback with
  `calendar.month_name` / `calendar.month_abbr` lookup;
* `run_conversion` — the per-segment orchestration loop, with the external
  LLM extraction call and the file write modelled as oracles.

Modelling conventions, each noted again at the definition it concerns:
Python's `\s` / `str.strip()` whitespace set is embedded for the whole
Unicode whitespace table; regex character classes `\d` and `[A-Za-z]` are
embedded as their ASCII sets; `strptime` month names are the fixed English
C-locale tables that `calendar` also exposes; `strftime("%Y-%m-%d")` is
embedded with the glibc/Linux behaviour in which `%Y` renders the year as a
plain decimal number without zero padding (CPython delegates `%Y` to the
platform, and on Linux years below 1000 are not padded).
-/

set_option maxRecDepth 10000

namespace MinutesConv

/-- Python whitespace (the `str.isspace` / regex `\s` character set for `str`):
ASCII space, TAB, LF, VT, FF, CR, the file/group/record/unit separators,
NEL, NBSP, and the Unicode space separators. -/
def isSpace (c : Char) : Bool :=
  decide (c.toNat = 32 ∨ c.toNat = 9 ∨ c.toNat = 10 ∨ c.toNat = 11 ∨
    c.toNat = 12 ∨ c.toNat = 13 ∨ c.toNat = 28 ∨ c.toNat = 29 ∨ c.toNat = 30 ∨
    c.toNat = 31 ∨ c.toNat = 133 ∨ c.toNat = 160 ∨ c.toNat = 5760 ∨
    (8192 ≤ c.toNat ∧ c.toNat ≤ 8202) ∨ c.toNat = 8232 ∨ c.toNat = 8233 ∨
    c.toNat = 8239 ∨ c.toNat = 8287 ∨ c.toNat = 12288)

/-- ASCII decimal digit (regex `\d`, restricted to ASCII). -/
def isDigit (c : Char) : Bool := decide (48 ≤ c.toNat ∧ c.toNat ≤ 57)

/-- ASCII letter (regex `[A-Za-z]`). -/
def isAlpha (c : Char) : Bool :=
  decide ((65 ≤ c.toNat ∧ c.toNat ≤ 90) ∨ (97 ≤ c.toNat ∧ c.toNat ≤ 122))

/-- Numeric value of an ASCII digit character. -/
def digitVal (c : Char) : Nat := c.toNat - 48

/-- ASCII lower-casing, as Python's `str.lower` acts on ASCII letters. -/
def lowerCh (c : Char) : Char :=
  if 65 ≤ c.toNat ∧ c.toNat ≤ 90 then Char.ofNat (c.toNat + 32) else c

/-- Python `str.lstrip()`: drop the maximal run of leading whitespace. -/
def lstrip (s : List Char) : List Char := s.dropWhile isSpace

/-- Python `str.strip()`: drop leading and trailing whitespace. -/
def strip (s : List Char) : List Char := ((lstrip s).reverse.dropWhile isSpace).reverse

/-!
## Segmenter (`split_into_meetings`, src lines 73–80)

The split pattern is `\n\s*(?:\*{3,}|-{3,}|Meeting:)\s*\n?`.  For this
pattern the regex engine's leftmost-match/backtracking behaviour reduces to a
deterministic scan: a match begins at a literal `'\n'`; the following `\s*`
is the maximal whitespace run (every alternative starts with a
non-whitespace character, so a shorter run can never help); the alternation
takes the maximal run of `'*'` (at least 3), the maximal run of `'-'`
(at least 3), or the literal token `Meeting:`; the trailing `\s*\n?` is the
maximal whitespace run (`\s` already matches `'\n'`, and nothing follows, so
greediness is never given up). -/

/-- If the split pattern `\n\s*(?:\*{3,}|-{3,}|Meeting:)\s*\n?` matches at the
head of `s`, return the remainder of `s` after the match; otherwise `none`. -/
def matchAt : List Char → Option (List Char)
  | [] => none
  | c :: rest =>
    if c = '\n' then
      let t := rest.dropWhile isSpace
      if 3 ≤ (t.takeWhile (fun x => x == '*')).length then
        some ((t.dropWhile (fun x => x == '*')).dropWhile isSpace)
      else if 3 ≤ (t.takeWhile (fun x => x == '-')).length then
        some ((t.dropWhile (fun x => x == '-')).dropWhile isSpace)
      else if "Meeting:".toList.isPrefixOf t then
        some ((t.drop 8).dropWhile isSpace)
      else none
    else none

/-- The scanning loop of `re.split`, structurally recursive on a fuel
parameter so that it evaluates by kernel reduction.  Every step consumes at
least one character of the input (a match consumes at least four), so any
fuel of at least the input's length gives the fuel-free behaviour; the
fuel-exhausted base case is unreachable from `splitSep` below. -/
def splitSepF : Nat → List Char → List Char × List (List Char)
  | 0, s => (s, [])
  | _ + 1, [] => ([], [])
  | fuel + 1, c :: rest =>
    match matchAt (c :: rest) with
    | some rem =>
      let p := splitSepF fuel rem
      ([], p.1 :: p.2)
    | none =>
      let p := splitSepF fuel rest
      (c :: p.1, p.2)

/-- `re.split` with the separator pattern: returns the first chunk and the
list of remaining chunks (so the chunk list is `p.1 :: p.2`, never empty,
matching `re.split`'s behaviour of always returning at least one piece). -/
def splitSep (s : List Char) : List Char × List (List Char) := splitSepF s.length s

/-- `split_into_meetings` (src lines 73–80): split on the separator pattern,
strip each chunk, keep those whose stripped length exceeds 50.  The source's
comprehension `[c.strip() for c in chunks if len(c.strip()) > 50]` is the
same as mapping `strip` and then filtering on the (already stripped) length. -/
def split_into_meetings (text : List Char) : List (List Char) :=
  let p := splitSep text
  ((p.1 :: p.2).map strip).filter (fun c => decide (50 < c.length))

/-- Number of separator-pattern matches that `re.split` found in `text`
(one less than the number of raw chunks). -/
def sepMatchCount (text : List Char) : Nat := (splitSep text).2.length

/-- A line that the SPEC calls a well-formed boundary marker: after trimming
it consists solely of three-or-more `'*'`, three-or-more `'-'`, or is the
literal token `Meeting:`.  (Stated from the spec's words, for comparison
with what the code's split pattern actually consumes.) -/
def specBoundaryLine (l : List Char) : Bool :=
  let t := strip l
  (decide (3 ≤ t.length) && t.all (fun c => c == '*')) ||
  (decide (3 ≤ t.length) && t.all (fun c => c == '-')) ||
  (t == "Meeting:".toList)

/-- The lines of a text, splitting at `'\n'`. -/
def linesOf (s : List Char) : List (List Char) := s.splitOn '\n'

-- sanity checks of the embedding on concrete inputs
example :
    split_into_meetings
      (("A" : String).toList ++ List.replicate 60 'a' ++ "\n***\n".toList ++
        List.replicate 60 'b') =
    [('A' :: List.replicate 60 'a'), List.replicate 60 'b'] := by decide

example : split_into_meetings ("\n***\n".toList) = [] := by decide

example :
    split_into_meetings (List.replicate 51 'x') = [List.replicate 51 'x'] := by
  decide

/-!
## Date normalizer (`standardize_date`, src lines 82–118)

The source strips the input, tries six `strptime` formats in order
(`%B %d, %Y`, `%b %d, %Y`, `%B %d %Y`, `%b %d %Y`, `%m/%d/%Y`, `%Y-%m-%d`),
and on failure attempts `re.match(r"([A-Za-z]+)\s+(\d{1,2}),?\s+(\d{4})", s)`
with a case-sensitive lookup in `calendar.month_name` / `calendar.month_abbr`.
CPython's `_strptime` compiles each format to an anchored regex that must
consume the whole input: `%Y` is `\d\d\d\d`, `%m` is `1[0-2]|0[1-9]|[1-9]`,
`%d` is `3[01]|[12]\d|0[1-9]|[1-9]` (alternatives tried in that order, with
backtracking), month names are matched case-insensitively, whitespace in the
format becomes `\s+`, and the matched fields must form a valid
`datetime.date` (year 1–9999, proleptic Gregorian leap rule), else a
`ValueError` is raised and the loop moves to the next format.
-/

/-- The English month-name table (`calendar.month_name[1..12]`, which is also
what `strptime`'s `%B` matches in the C locale). -/
def monthNames : List (List Char) :=
  ["January", "February", "March", "April", "May", "June", "July",
   "August", "September", "October", "November", "December"].map String.toList

/-- The English month-abbreviation table (`calendar.month_abbr[1..12]`,
matched by `%b`). -/
def monthAbbrs : List (List Char) :=
  ["Jan", "Feb", "Mar", "Apr", "May", "Jun", "Jul", "Aug", "Sep", "Oct",
   "Nov", "Dec"].map String.toList

/-- Case-insensitive prefix removal (strptime matches month names under
`re.IGNORECASE`): if `p` is a prefix of `s` up to ASCII case, return the
rest of `s`. -/
def stripPrefixCI : List Char → List Char → Option (List Char)
  | [], s => some s
  | _ :: _, [] => none
  | p :: ps, c :: cs => if lowerCh p == lowerCh c then stripPrefixCI ps cs else none

/-- Try each month name in `tbl` (1-based) as a case-insensitive prefix of
`s`; no table entry is a prefix of another, so at most one can match. -/
def findMonth : List (List Char) → Nat → List Char → Option (Nat × List Char)
  | [], _, _ => none
  | n :: ns, i, s =>
    match stripPrefixCI n s with
    | some rest => some (i, rest)
    | none => findMonth ns (i + 1) s

/-- Regex `\s+`: at least one whitespace character, consumed greedily (every
construct that follows `\s+` in these formats starts with a non-whitespace
character, so the maximal run is the only viable choice). -/
def reqSpaces : List Char → Option (List Char)
  | [] => none
  | c :: r => if isSpace c then some (r.dropWhile isSpace) else none

/-- strptime `%Y`: exactly four decimal digits, any value `0000`–`9999`. -/
def parse4Y : List Char → Option (Nat × List Char)
  | a :: b :: c :: d :: r =>
    if isDigit a && isDigit b && isDigit c && isDigit d then
      some (1000 * digitVal a + 100 * digitVal b + 10 * digitVal c + digitVal d, r)
    else none
  | _ => none

/-- `%Y` as the final format construct: the four digits must end the input
(`_strptime` raises on unconverted trailing data). -/
def yearEnd (s : List Char) : Option Nat :=
  match parse4Y s with
  | some (y, r) => if r = [] then some y else none
  | none => none

/-- strptime `%d`, regex `3[01]|[12]\d|0[1-9]|[1-9]`: the alternatives, in
the regex's preference order, as (value, rest) pairs for the backtracking
driver `firstSome`. -/
def dayAlts : List Char → List (Nat × List Char)
  | c1 :: c2 :: r =>
    (if c1 = '3' ∧ (c2 = '0' ∨ c2 = '1') then [(30 + digitVal c2, r)] else []) ++
    (if (c1 = '1' ∨ c1 = '2') ∧ isDigit c2 then
      [(10 * digitVal c1 + digitVal c2, r)] else []) ++
    (if c1 = '0' ∧ (isDigit c2 ∧ c2 ≠ '0') then [(digitVal c2, r)] else []) ++
    (if isDigit c1 ∧ c1 ≠ '0' then [(digitVal c1, c2 :: r)] else [])
  | [c1] => if isDigit c1 ∧ c1 ≠ '0' then [(digitVal c1, [])] else []
  | [] => []

/-- strptime `%m`, regex `1[0-2]|0[1-9]|[1-9]`, alternatives in order. -/
def monthAlts : List Char → List (Nat × List Char)
  | c1 :: c2 :: r =>
    (if c1 = '1' ∧ (c2 = '0' ∨ c2 = '1' ∨ c2 = '2') then
      [(10 + digitVal c2, r)] else []) ++
    (if c1 = '0' ∧ (isDigit c2 ∧ c2 ≠ '0') then [(digitVal c2, r)] else []) ++
    (if isDigit c1 ∧ c1 ≠ '0' then [(digitVal c1, c2 :: r)] else [])
  | [c1] => if isDigit c1 ∧ c1 ≠ '0' then [(digitVal c1, [])] else []
  | [] => []

/-- Regex backtracking over a list of alternatives: return the first
alternative on which the continuation succeeds. -/
def firstSome {α : Type} : List (Nat × List Char) → (Nat → List Char → Option α) → Option α
  | [], _ => none
  | (v, r) :: rest, k =>
    match k v r with
    | some x => some x
    | none => firstSome rest k

/-- The four alphabetic-month formats `%B %d, %Y`, `%b %d, %Y`, `%B %d %Y`,
`%b %d %Y`, parameterized by month table and by whether the literal comma is
present.  Returns the raw (year, month, day) triple; date validity is
checked by the caller, as `strptime` raises after matching. -/
def fmtAlpha (tbl : List (List Char)) (comma : Bool) (s : List Char) :
    Option (Nat × Nat × Nat) :=
  match findMonth tbl 1 s with
  | none => none
  | some (m, r1) =>
    match reqSpaces r1 with
    | none => none
    | some r2 =>
      firstSome (dayAlts r2) (fun d r3 =>
        match (if comma then
                 match r3 with
                 | c :: r => if c = ',' then some r else none
                 | [] => none
               else some r3) with
        | none => none
        | some r4 =>
          match reqSpaces r4 with
          | none => none
          | some r5 => (yearEnd r5).map (fun y => (y, m, d)))

/-- Format `%m/%d/%Y`. -/
def fmt_mdy (s : List Char) : Option (Nat × Nat × Nat) :=
  firstSome (monthAlts s) (fun m r1 =>
    match r1 with
    | [] => none
    | c :: r2 =>
      if c = '/' then
        firstSome (dayAlts r2) (fun d r3 =>
          match r3 with
          | [] => none
          | c2 :: r4 =>
            if c2 = '/' then (yearEnd r4).map (fun y => (y, m, d)) else none)
      else none)

/-- Format `%Y-%m-%d`. -/
def fmt_iso (s : List Char) : Option (Nat × Nat × Nat) :=
  match parse4Y s with
  | none => none
  | some (y, r0) =>
    match r0 with
    | [] => none
    | c :: r1 =>
      if c = '-' then
        firstSome (monthAlts r1) (fun m r2 =>
          match r2 with
          | [] => none
          | c2 :: r3 =>
            if c2 = '-' then
              firstSome (dayAlts r3) (fun d r4 =>
                if r4 = [] then some (y, m, d) else none)
            else none)
      else none

/-- Proleptic-Gregorian leap year, as `datetime` uses. -/
def isLeap (y : Nat) : Prop := y % 4 = 0 ∧ (y % 100 ≠ 0 ∨ y % 400 = 0)

instance (y : Nat) : Decidable (isLeap y) := by unfold isLeap; infer_instance

/-- Length of a month, as `datetime` validates days. -/
def daysInMonth (y m : Nat) : Nat :=
  if m = 2 then (if isLeap y then 29 else 28)
  else if m = 4 ∨ m = 6 ∨ m = 9 ∨ m = 11 then 30 else 31

/-- `datetime.date(y, m, d)` succeeds exactly on these triples
(`datetime.MINYEAR = 1`, `datetime.MAXYEAR = 9999`). -/
def validDate (y m d : Nat) : Prop :=
  1 ≤ y ∧ y ≤ 9999 ∧ 1 ≤ m ∧ m ≤ 12 ∧ 1 ≤ d ∧ d ≤ daysInMonth y m

instance (y m d : Nat) : Decidable (validDate y m d) := by
  unfold validDate; infer_instance

/-- The `datetime.date` constructor's validation, applied to a parse result:
an invalid triple raises, which the source catches and treats as a failed
format. -/
def checkDate (t : Nat × Nat × Nat) : Option (Nat × Nat × Nat) :=
  if validDate t.1 t.2.1 t.2.2 then some t else none

/-- The six formats of the source's `formats` list, in order. -/
def formatList : List (List Char → Option (Nat × Nat × Nat)) :=
  [fmtAlpha monthNames true, fmtAlpha monthAbbrs true,
   fmtAlpha monthNames false, fmtAlpha monthAbbrs false, fmt_mdy, fmt_iso]

/-- The `for fmt in formats: try ... except: continue` loop: first format
that both matches and yields a constructible date wins. -/
def tryList (fs : List (List Char → Option (Nat × Nat × Nat))) (s : List Char) :
    Option (Nat × Nat × Nat) :=
  match fs with
  | [] => none
  | f :: rest =>
    match (f s).bind checkDate with
    | some t => some t
    | none => tryList rest s

/-- The strptime stage of `standardize_date` on the stripped input. -/
def tryFormats (s : List Char) : Option (Nat × Nat × Nat) := tryList formatList s

/-- Exact (case-sensitive) 1-based index lookup, as
`list(calendar.month_name).index(month)` behaves for a non-empty `month`
(index 0 holds the empty string, which a non-empty word never equals). -/
def monthIndexExact (tbl : List (List Char)) (w : List Char) : Option Nat :=
  go tbl 1 w
where
  go : List (List Char) → Nat → List Char → Option Nat
    | [], _, _ => none
    | n :: ns, i, w => if w = n then some i else go ns (i + 1) w

/-- Month-word resolution of the fallback (src line 113): full names first,
then abbreviations, both case-sensitively. -/
def resolveMonth (w : List Char) : Option Nat :=
  match monthIndexExact monthNames w with
  | some i => some i
  | none => monthIndexExact monthAbbrs w

/-- Fallback day, regex `(\d{1,2})`: two digits greedily, then one, any
values (`00` parses to 0; validity is left to `datetime.date`). -/
def fbDayAlts : List Char → List (Nat × List Char)
  | c1 :: c2 :: r =>
    (if isDigit c1 ∧ isDigit c2 then [(10 * digitVal c1 + digitVal c2, r)] else []) ++
    (if isDigit c1 then [(digitVal c1, c2 :: r)] else [])
  | [c1] => if isDigit c1 then [(digitVal c1, [])] else []
  | [] => []

/-- Fallback year, regex `(\d{4})` at the end of the pattern: four digits,
with arbitrary trailing input allowed (`re.match` anchors only the start). -/
def parse4Any (s : List Char) : Option Nat :=
  match parse4Y s with
  | some (y, _) => some y
  | none => none

/-- The fallback `re.match(r"([A-Za-z]+)\s+(\d{1,2}),?\s+(\d{4})", s)`
followed by the month lookup: `([A-Za-z]+)` is the maximal run of ASCII
letters (anything shorter leaves a letter where `\s+` must match), `,?\s+`
is an optional comma followed by mandatory whitespace (if the comma is
absent the comma character itself can never satisfy `\s+`, so no
backtracking arises), and the day backtracks from two digits to one. -/
def fallbackParse (s : List Char) : Option (Nat × Nat × Nat) :=
  let letters := s.takeWhile isAlpha
  if letters = [] then none
  else
    match reqSpaces (s.dropWhile isAlpha) with
    | none => none
    | some r2 =>
      match firstSome (fbDayAlts r2) (fun d r3 =>
        match (match r3 with
               | c :: r => if c = ',' then some r else some (c :: r)
               | [] => none) with
        | none => none
        | some r4 =>
          match reqSpaces r4 with
          | none => none
          | some r5 => (parse4Any r5).map (fun y => (d, y))) with
      | none => none
      | some (d, y) =>
        match resolveMonth letters with
        | some m => some (y, m, d)
        | none => none

/-- glibc `%Y` (what CPython's `date.strftime` delegates to on Linux): the
year as a plain decimal number, NOT zero-padded below 1000 (CPython issue
13305).  `datetime` years are at most 9999, for which this rendering is
exact. -/
def yearStr (y : Nat) : List Char :=
  if 1000 ≤ y then
    [Nat.digitChar (y / 1000), Nat.digitChar (y / 100 % 10),
     Nat.digitChar (y / 10 % 10), Nat.digitChar (y % 10)]
  else if 100 ≤ y then
    [Nat.digitChar (y / 100), Nat.digitChar (y / 10 % 10), Nat.digitChar (y % 10)]
  else if 10 ≤ y then [Nat.digitChar (y / 10), Nat.digitChar (y % 10)]
  else [Nat.digitChar y]

/-- `%m` / `%d`: zero-padded to two digits (months and days are ≤ 31, for
which this rendering is exact). -/
def pad2 (n : Nat) : List Char :=
  if n < 10 then ['0', Nat.digitChar n]
  else [Nat.digitChar (n / 10), Nat.digitChar (n % 10)]

/-- `dt.strftime("%Y-%m-%d")` on a date with components `y`, `m`, `d`. -/
def strftimeYMD (y m d : Nat) : List Char :=
  yearStr y ++ '-' :: (pad2 m ++ '-' :: pad2 d)

/-- `standardize_date` (src lines 82–118): strip, try the six strptime
formats in order, then the manual fallback; every failure path returns the
empty string. -/
def standardize_date (s0 : List Char) : List Char :=
  let s := strip s0
  match tryFormats s with
  | some (y, m, d) => strftimeYMD y m d
  | none =>
    match (fallbackParse s).bind checkDate with
    | some (y, m, d) => strftimeYMD y m d
    | none => []

-- sanity checks against the source's documented examples
example : standardize_date ("January 21, 2004".toList) = "2004-01-21".toList := by
  decide
example : standardize_date ("Oct 6, 1971".toList) = "1971-10-06".toList := by decide
example : standardize_date ("01/21/2004".toList) = "2004-01-21".toList := by decide
example : standardize_date ("2004-1-5".toList) = "2004-01-05".toList := by decide
example : standardize_date ("February 30, 2004".toList) = [] := by decide
example : standardize_date ("  2004-02-29  ".toList) = "2004-02-29".toList := by
  decide
example : standardize_date ("2003-02-29".toList) = [] := by decide
example : standardize_date ("January 21, 0123".toList) = "123-01-21".toList := by
  decide

/-!
## Orchestrator (`run_conversion`, src lines 122–177)

The loop body is one big `try` block: the extraction call
(`chain.invoke`), the `model_dump`, the `original_text` assignment, the
date standardization, and the `open`/`write` of the output line are all
inside it, and `except Exception` logs `(i+1, str(e), chunk)` to
`errors.log` and continues with the next chunk.  The `errors.log`
open/write itself (src lines 172–174) sits INSIDE the `except` handler
with no protection of its own, so if that append raises, the exception
propagates out of the loop and the run aborts, with the remaining chunks
unprocessed.  Before the loop, `open(INPUT_FILE)`/`read()` (src lines
151–152) is likewise unprotected: an input file that exists but cannot
be read aborts the run before anything is processed.

The effectful, fallible operations are modelled as oracles: `readErr` is
the outcome of reading the input (after the `os.path.exists` check), and,
indexed by the 0-based chunk index, `extract i` is the structured-LLM
call's outcome, `writeErr i` is `some msg` when opening/writing the
output file raises, and `logErr i` is `some msg` when opening/writing
`errors.log` raises (modelled at open granularity: a failed append
appends nothing).  The `sleep` calls and progress prints carry no data
and are omitted. -/

/-- The fields of the extracted record the orchestrator reads or writes:
`date` (overwritten by the normalizer when non-empty) and `original_text`
(always overwritten with the chunk).  The remaining extracted fields
(location, attendance, treasurer report, motions, key events, next-meeting
info) pass through the loop untouched and are bundled as opaque
field-name/value pairs. -/
structure MeetingRec where
  date : List Char
  originalText : List Char
  otherFields : List (List Char × List Char)
deriving DecidableEq

/-- One iteration of the loop body for chunk `i`: either a record ready to
have been written (`Except.ok`) or the caught exception's message
(`Except.error`). -/
def processOne (extract : Nat → Except (List Char) MeetingRec)
    (writeErr : Nat → Option (List Char)) (i : Nat) (chunk : List Char) :
    Except (List Char) MeetingRec :=
  match extract i with
  | .error e => .error e
  | .ok r0 =>
    let r1 : MeetingRec := { r0 with originalText := chunk }
    let r2 : MeetingRec :=
      if r1.date ≠ [] then { r1 with date := standardize_date r1.date } else r1
    match writeErr i with
    | some e => .error e
    | none => .ok r2

/-- The `for i, meeting_chunk in enumerate(meetings)` loop, processed left
to right.  A successful iteration appends its record to the output stream;
a failed one attempts to append `(i+1, message, chunk)` to `errors.log`:
if that append succeeds the loop continues, but if the append itself
raises (`logErr i = some msg`, src lines 172–174, unprotected inside the
`except` handler) the exception escapes the loop and the run aborts —
the third component carries the uncaught exception, and the chunks after
the abort point contribute nothing.  The outputs and log entries appended
BEFORE the abort were already written and are retained. -/
def processMeetings (extract : Nat → Except (List Char) MeetingRec)
    (writeErr logErr : Nat → Option (List Char)) :
    Nat → List (List Char) →
      (List MeetingRec × List (Nat × List Char × List Char)) × Option (List Char)
  | _, [] => (([], []), none)
  | i, chunk :: rest =>
    match processOne extract writeErr i chunk with
    | .ok r =>
      let tail := processMeetings extract writeErr logErr (i + 1) rest
      ((r :: tail.1.1, tail.1.2), tail.2)
    | .error e =>
      match logErr i with
      | none =>
        let tail := processMeetings extract writeErr logErr (i + 1) rest
        ((tail.1.1, (i + 1, e, chunk) :: tail.1.2), tail.2)
      | some le => (([], []), some le)

/-- The observable outcome of one `run_conversion()` call. -/
inductive RunResult where
  /-- `INPUT_FILE` does not exist: the error message is printed and the
  function returns — nothing is processed, nothing is written. -/
  | inputMissing
  /-- `open(INPUT_FILE)`/`read()` raised (src lines 151–152, unprotected;
  the file exists but cannot be read): the run aborts with nothing
  processed. -/
  | readFailure (msg : List Char)
  /-- The loop ran over the segments, appending `outputs` to the output
  stream and `errlog` to `errors.log`; `err` is `some msg` when an
  `errors.log` append raised and aborted the run mid-loop (the entries
  shown are the ones appended before that point), `none` when the loop
  reached the final summary print. -/
  | ran (outputs : List MeetingRec) (errlog : List (Nat × List Char × List Char))
      (err : Option (List Char))
deriving DecidableEq

/-- `run_conversion`: the `os.path.exists` check, then the one-shot input
read, then the loop over `split_into_meetings` of the text. -/
def run_conversion (inputExists : Bool) (readErr : Option (List Char))
    (fullText : List Char)
    (extract : Nat → Except (List Char) MeetingRec)
    (writeErr logErr : Nat → Option (List Char)) : RunResult :=
  if inputExists then
    match readErr with
    | some e => .readFailure e
    | none =>
      let p := processMeetings extract writeErr logErr 0 (split_into_meetings fullText)
      .ran p.1.1 p.1.2 p.2
  else .inputMissing

-- sanity checks: an uncaught `errors.log`-append failure aborts the run
-- mid-loop (the second segment is never processed), and results appended
-- before the abort are retained
example :
    run_conversion true none
      (List.replicate 60 'p' ++ "\n***\n".toList ++ List.replicate 60 'q')
      (fun _ => .error ("quota".toList)) (fun _ => none)
      (fun i => if i = 0 then some ("log open failed".toList) else none) =
    .ran [] [] (some ("log open failed".toList)) := by decide

example :
    run_conversion true none
      (List.replicate 60 'p' ++ "\n***\n".toList ++ List.replicate 60 'q')
      (fun i => if i = 0 then .ok ⟨[], [], []⟩ else .error ("quota".toList))
      (fun _ => none)
      (fun i => if i = 1 then some ("log open failed".toList) else none) =
    .ran [⟨[], List.replicate 60 'p', []⟩] [] (some ("log open failed".toList)) := by
  decide

/-!
## Helper lemmas
-/

theorem strip_eq_rdrop (s : List Char) :
    strip s = List.rdropWhile isSpace (s.dropWhile isSpace) := rfl

theorem dropWhile_of_rdropWhile {p : Char → Bool} {l : List Char}
    (h : List.dropWhile p l = l) :
    List.dropWhile p (List.rdropWhile p l) = List.rdropWhile p l := by
  obtain ⟨t, ht⟩ := List.rdropWhile_prefix p l
  cases hB : List.rdropWhile p l with
  | nil => rfl
  | cons b B =>
    have hl : l = b :: (B ++ t) := by rw [← ht, hB]; rfl
    have hpb : p b = false := by
      by_contra hc
      have hb : p b = true := by
        cases hpb : p b with
        | false => exact absurd hpb hc
        | true => rfl
      rw [hl, List.dropWhile_cons, if_pos hb] at h
      have hle : (List.dropWhile p (B ++ t)).length ≤ (B ++ t).length :=
        ((List.dropWhile_suffix p).sublist).length_le
      have := congrArg List.length h
      simp [List.length_append] at this hle
      omega
    rw [List.dropWhile_cons, if_neg (by simp [hpb])]

theorem strip_idem (s : List Char) : strip (strip s) = strip s := by
  rw [strip_eq_rdrop, strip_eq_rdrop,
    dropWhile_of_rdropWhile (List.dropWhile_idempotent isSpace s),
    List.rdropWhile_idempotent]

/-!
## Claims about the segmenter (C1, C2, C8)
-/

/-- C1, counterexample: the input whose first line is the well-formed
boundary marker `***` followed by 60 characters of content has exactly one
well-formed boundary-marker line, yet `split_into_meetings` returns a piece
that still contains that boundary line — the split pattern requires a
newline BEFORE the marker, so a marker on the first line of the input is
never consumed. -/
theorem C1_cex :
    ((linesOf ('*' :: '*' :: '*' :: '\n' :: List.replicate 60 'a')).countP
        specBoundaryLine = 1) ∧
    ((split_into_meetings ('*' :: '*' :: '*' :: '\n' :: List.replicate 60 'a')).any
        fun p => (linesOf p).any specBoundaryLine) = true := by
  decide

/-- C1, amended: `split_into_meetings` returns at most `M + 1` pieces where
`M` is the number of matches of the code's separator pattern (a newline,
optional whitespace, then a run of three-or-more `*`, three-or-more `-`, or
the token `Meeting:`, then trailing whitespace); each matched separator is
consumed.  A marker token that the pattern does not reach — on the first
line of the input, or directly after a consumed separator — stays inside
the adjacent piece, and a marker token followed by further text on its line
still triggers a split, so the bound and the no-marker guarantee hold for
pattern matches, not for the spec's well-formed boundary lines. -/
theorem C1_piece_bound (text : List Char) :
    (split_into_meetings text).length ≤ sepMatchCount text + 1 := by
  unfold split_into_meetings sepMatchCount
  calc ((((splitSep text).1 :: (splitSep text).2).map strip).filter
          (fun c => decide (50 < c.length))).length
      ≤ (((splitSep text).1 :: (splitSep text).2).map strip).length :=
        List.length_filter_le _ _
    _ = (splitSep text).2.length + 1 := by simp

/-- C2: every piece returned by `split_into_meetings` is already stripped
and has length strictly greater than 50 (so its trimmed length is at least
51); shorter pieces are dropped by the filter. -/
theorem C2_min_length (text p : List Char)
    (hp : p ∈ split_into_meetings text) : 50 < p.length ∧ strip p = p := by
  simp only [split_into_meetings, List.mem_filter] at hp
  obtain ⟨hmem, hlen⟩ := hp
  have hl : 50 < p.length := of_decide_eq_true hlen
  rw [List.mem_map] at hmem
  obtain ⟨c, _, rfl⟩ := hmem
  exact ⟨hl, strip_idem c⟩

theorem C2_min_length_w :
    50 < (List.replicate 51 'b' : List Char).length ∧
      strip (List.replicate 51 'b') = List.replicate 51 'b' :=
  C2_min_length (List.replicate 51 'b') (List.replicate 51 'b') (by decide)

/-- C8, counterexample: an input with NO well-formed boundary-marker line
(the token `Meeting:` sits at the start of a line but is followed by more
text, so the line does not trim to a bare marker) is nevertheless split
into two pieces, because the code's pattern does not require the marker to
occupy the whole line. -/
theorem C8_cex :
    ((linesOf (List.replicate 60 'a' ++ "\nMeeting: ".toList ++
        List.replicate 60 'b')).countP specBoundaryLine = 0) ∧
    (split_into_meetings (List.replicate 60 'a' ++ "\nMeeting: ".toList ++
        List.replicate 60 'b')).length = 2 := by
  decide

theorem splitSepF_no_match (fuel : Nat) (s : List Char)
    (h : ∀ i, i < s.length → matchAt (s.drop i) = none) :
    splitSepF fuel s = (s, []) := by
  induction fuel generalizing s with
  | zero => rfl
  | succ n ih =>
    cases s with
    | nil => rfl
    | cons c rest =>
      have h0 : matchAt (c :: rest) = none := by
        have := h 0 (by simp)
        simpa using this
      have hrest : ∀ i, i < rest.length → matchAt (rest.drop i) = none := by
        intro i hi
        have := h (i + 1) (by simp; omega)
        simpa using this
      simp only [splitSepF, h0]
      rw [ih rest hrest]

/-- C8, amended: for an input on which the code's separator pattern never
matches (no newline followed by optional whitespace and a marker token),
`split_into_meetings` returns exactly the whole stripped input when its
stripped length exceeds 50, and the empty list otherwise — and, being a
total function, it raises nothing on malformed or missing boundaries. -/
theorem C8_no_sep (text : List Char)
    (h : ∀ i, i < text.length → matchAt (text.drop i) = none) :
    split_into_meetings text =
      if 50 < (strip text).length then [strip text] else [] := by
  unfold split_into_meetings splitSep
  rw [splitSepF_no_match _ _ h]
  by_cases hl : 50 < (strip text).length
  · simp [List.filter, hl]
  · simp [List.filter, hl]

theorem C8_no_sep_w :
    split_into_meetings (List.replicate 60 'c') =
      if 50 < (strip (List.replicate 60 'c')).length then
        [strip (List.replicate 60 'c')] else [] :=
  C8_no_sep (List.replicate 60 'c') (by decide)

/-!
## Claims about the date normalizer (C3, C4, C10 here; C5–C7 below)
-/

/-- C3: `standardize_date` is a total function (the embedding's type shows
the source returns on every path, every exception being caught inside);
the inputs `"Nonsense"` and `""` produce the empty-string sentinel, and so
does every input on which neither the strptime stage nor the fallback stage
recognizes a date. -/
theorem C3_total_sentinel :
    standardize_date ("Nonsense".toList) = [] ∧ standardize_date [] = [] ∧
    ∀ s : List Char, tryFormats (strip s) = none → fallbackParse (strip s) = none →
      standardize_date s = [] := by
  refine ⟨by decide, by decide, ?_⟩
  intro s h1 h2
  simp [standardize_date, h1, h2]

theorem C3_total_sentinel_w : standardize_date ("xyzzy".toList) = [] :=
  C3_total_sentinel.2.2 ("xyzzy".toList) (by decide) (by decide)

/-- C4: the six documented date shapes all normalize to `2004-01-21`
(the formats are tried in the source's order; the first match wins, which
the shared `standardize_date` embedding realizes). -/
theorem C4_six_formats :
    standardize_date ("January 21, 2004".toList) = "2004-01-21".toList ∧
    standardize_date ("Jan 21, 2004".toList) = "2004-01-21".toList ∧
    standardize_date ("January 21 2004".toList) = "2004-01-21".toList ∧
    standardize_date ("Jan 21 2004".toList) = "2004-01-21".toList ∧
    standardize_date ("01/21/2004".toList) = "2004-01-21".toList ∧
    standardize_date ("2004-01-21".toList) = "2004-01-21".toList := by
  decide

/-- C10: the fallback regex is anchored only at the start, so an input that
matches none of the six strict grammars but begins with a month word, a day
and a 4-digit year — here with arbitrary trailing text — normalizes to the
date of its prefix instead of the empty sentinel. -/
theorem C10_fallback_prefix :
    tryFormats (strip ("January 21, 2004 at the clubhouse".toList)) = none ∧
    standardize_date ("January 21, 2004 at the clubhouse".toList) =
      "2004-01-21".toList := by
  decide

/-!
## Claims about the orchestrator (C9)
-/

/-- C9, counterexample: a run over two long segments in which extraction
succeeds on both and every `errors.log` append works, but writing the
OUTPUT record fails on the first segment: the failure is caught like any
other per-segment exception — it is logged to `errors.log` as entry 1 and
the SECOND segment is still processed and written, and the run completes
(`err = none`) — so a failure to write a record to the output resource
does not abort the run, contrary to the claim. -/
theorem C9_cex :
    run_conversion true none
      (List.replicate 60 'p' ++ "\n---\n".toList ++ List.replicate 60 'q')
      (fun _ => .ok ⟨"2004-01-21".toList, [], []⟩)
      (fun i => if i = 0 then some ("disk full".toList) else none)
      (fun _ => none) =
    .ran [⟨"2004-01-21".toList, List.replicate 60 'q', []⟩]
         [(1, "disk full".toList, List.replicate 60 'p')] none := by
  decide

theorem processMeetings_complete (extract : Nat → Except (List Char) MeetingRec)
    (writeErr logErr : Nat → Option (List Char))
    (hlog : ∀ i, logErr i = none) (i : Nat) (chunks : List (List Char)) :
    (processMeetings extract writeErr logErr i chunks).2 = none ∧
    (processMeetings extract writeErr logErr i chunks).1.1.length +
      (processMeetings extract writeErr logErr i chunks).1.2.length =
      chunks.length := by
  induction chunks generalizing i with
  | nil => exact ⟨rfl, rfl⟩
  | cons c rest ih =>
    cases hp : processOne extract writeErr i c with
    | ok r =>
      simp only [processMeetings, hp]
      refine ⟨(ih (i + 1)).1, ?_⟩
      have := (ih (i + 1)).2
      simp only [List.length_cons]
      omega
    | error e =>
      simp only [processMeetings, hp, hlog i]
      refine ⟨(ih (i + 1)).1, ?_⟩
      have := (ih (i + 1)).2
      simp only [List.length_cons]
      omega

/-- C9, amended: a failure to write a record to the OUTPUT resource is not
fatal — it is caught by the per-segment handler exactly like an
extraction-service failure, logged, and processing continues with the next
segment.  The runs that do halt early are: a missing input file (nothing
processed), a failed input read (src lines 151–152, unprotected), and a
failure of the `errors.log` append itself (src lines 172–174, unprotected
inside the `except` handler).  Whenever the log resource stays writable,
the run completes and every segment reaches exactly one outcome — an
output record or an error-log entry — regardless of extraction and
output-write failures. -/
theorem C9_write_failure_not_fatal (fullText e : List Char)
    (rdErr : Option (List Char))
    (extract : Nat → Except (List Char) MeetingRec)
    (writeErr logErr : Nat → Option (List Char))
    (hlog : ∀ i, logErr i = none) :
    run_conversion false rdErr fullText extract writeErr logErr = .inputMissing ∧
    run_conversion true (some e) fullText extract writeErr logErr = .readFailure e ∧
    ∃ outs errs,
      run_conversion true none fullText extract writeErr logErr =
        .ran outs errs none ∧
      outs.length + errs.length = (split_into_meetings fullText).length := by
  refine ⟨rfl, rfl, ?_⟩
  obtain ⟨h1, h2⟩ := processMeetings_complete extract writeErr logErr hlog 0
    (split_into_meetings fullText)
  refine ⟨_, _, ?_, h2⟩
  simp only [run_conversion]
  rw [h1]
  exact if_pos trivial

theorem C9_write_failure_not_fatal_w :
    run_conversion false none (List.replicate 60 'z')
      (fun _ => .error ("quota".toList)) (fun _ => none) (fun _ => none) =
      .inputMissing ∧
    run_conversion true (some ("io".toList)) (List.replicate 60 'z')
      (fun _ => .error ("quota".toList)) (fun _ => none) (fun _ => none) =
      .readFailure ("io".toList) ∧
    ∃ outs errs,
      run_conversion true none (List.replicate 60 'z')
        (fun _ => .error ("quota".toList)) (fun _ => none) (fun _ => none) =
        .ran outs errs none ∧
      outs.length + errs.length =
        (split_into_meetings (List.replicate 60 'z')).length :=
  C9_write_failure_not_fatal (List.replicate 60 'z') ("io".toList) none
    (fun _ => .error ("quota".toList)) (fun _ => none) (fun _ => none)
    (fun _ => rfl)

/-!
## Shape of successful normalizations (C5, C6)

Every non-empty result of `standardize_date` is `strftimeYMD y m d` for a
triple that passed the `datetime.date` validation.
-/

theorem checkDate_valid {x : Option (Nat × Nat × Nat)} {t : Nat × Nat × Nat}
    (h : x.bind checkDate = some t) : validDate t.1 t.2.1 t.2.2 := by
  cases x with
  | none => simp at h
  | some v =>
    simp only [Option.bind] at h
    unfold checkDate at h
    split at h
    · cases h; assumption
    · cases h

theorem tryList_valid {fs : List (List Char → Option (Nat × Nat × Nat))}
    {s : List Char} {t : Nat × Nat × Nat} (h : tryList fs s = some t) :
    validDate t.1 t.2.1 t.2.2 := by
  induction fs with
  | nil => simp [tryList] at h
  | cons f rest ih =>
    simp only [tryList] at h
    cases hf : (f s).bind checkDate with
    | some u =>
      simp only [hf] at h
      injection h with h
      subst h
      exact checkDate_valid hf
    | none =>
      simp only [hf] at h
      exact ih h

theorem standardize_date_shape {s : List Char} (h : standardize_date s ≠ []) :
    ∃ y m d, validDate y m d ∧ standardize_date s = strftimeYMD y m d := by
  cases htf : tryFormats (strip s) with
  | some t =>
    obtain ⟨y, m, d⟩ := t
    refine ⟨y, m, d, tryList_valid (show tryList formatList (strip s) = _ from htf), ?_⟩
    simp [standardize_date, htf]
  | none =>
    cases hfb : (fallbackParse (strip s)).bind checkDate with
    | some t =>
      obtain ⟨y, m, d⟩ := t
      refine ⟨y, m, d, checkDate_valid hfb, ?_⟩
      simp [standardize_date, htf, hfb]
    | none =>
      exact absurd (by simp [standardize_date, htf, hfb]) h

theorem pad2_length (n : Nat) : (pad2 n).length = 2 := by
  unfold pad2; split <;> rfl

theorem yearStr_length_of_ge {y : Nat} (h : 1000 ≤ y) : (yearStr y).length = 4 := by
  unfold yearStr; rw [if_pos h]; rfl

theorem yearStr_length_le3 {y : Nat} (h : y < 1000) : (yearStr y).length ≤ 3 := by
  unfold yearStr
  rw [if_neg (by omega)]
  split
  · rfl
  · split <;> simp

theorem strftimeYMD_length (y m d : Nat) :
    (strftimeYMD y m d).length = (yearStr y).length + 6 := by
  simp [strftimeYMD, pad2_length]

/-- C5, counterexample: strptime's `%Y` accepts any four digits, including a
zero-padded year below 1000, and Linux `strftime` renders such a year
without padding — `"January 21, 0123"` normalizes to the 9-character
`"123-01-21"`, not to a 10-character `YYYY-MM-DD` string. -/
theorem C5_cex :
    standardize_date ("January 21, 0123".toList) = "123-01-21".toList ∧
    (standardize_date ("January 21, 0123".toList)).length = 9 := by
  decide

/-- C5, amended: every non-empty result of `standardize_date` is the
`%Y-%m-%d` rendering of a valid date with zero-padded two-digit month and
day, and whenever the year is at least 1000 (so `%Y` has its nominal four
digits) the result is exactly 10 characters; years below 1000 — reachable
through zero-padded 4-digit inputs — render shorter on Linux. -/
theorem C5_shape (s : List Char) (h : standardize_date s ≠ []) :
    ∃ y m d, validDate y m d ∧ standardize_date s = strftimeYMD y m d ∧
      (1000 ≤ y → (standardize_date s).length = 10) := by
  obtain ⟨y, m, d, hv, he⟩ := standardize_date_shape h
  refine ⟨y, m, d, hv, he, fun hy => ?_⟩
  rw [he, strftimeYMD_length, yearStr_length_of_ge hy]

theorem C5_shape_w :
    ∃ y m d, validDate y m d ∧
      standardize_date ("2004-01-21".toList) = strftimeYMD y m d ∧
      (1000 ≤ y → (standardize_date ("2004-01-21".toList)).length = 10) :=
  C5_shape ("2004-01-21".toList) (by decide)

/-- C6: every non-empty result of `standardize_date` denotes a valid
calendar date — month between 1 and 12 and day between 1 and the length of
that month in that year, with February's length determined by the
proleptic-Gregorian leap rule — rendered by `strftime("%Y-%m-%d")`. -/
theorem C6_valid_calendar (s : List Char) (h : standardize_date s ≠ []) :
    ∃ y m d, (1 ≤ m ∧ m ≤ 12 ∧ 1 ≤ d ∧ d ≤ daysInMonth y m) ∧
      standardize_date s = strftimeYMD y m d := by
  obtain ⟨y, m, d, hv, he⟩ := standardize_date_shape h
  exact ⟨y, m, d, ⟨hv.2.2.1, hv.2.2.2.1, hv.2.2.2.2.1, hv.2.2.2.2.2⟩, he⟩

theorem C6_valid_calendar_w :
    ∃ y m d, (1 ≤ m ∧ m ≤ 12 ∧ 1 ≤ d ∧ d ≤ daysInMonth y m) ∧
      standardize_date ("2004-02-29".toList) = strftimeYMD y m d :=
  C6_valid_calendar ("2004-02-29".toList) (by decide)

/-!
## Idempotence on canonical strings (C7)

The outputs of `strftimeYMD` with a four-digit year are re-parsed by the
sixth format `%Y-%m-%d` (and rejected by the first five), so normalization
is idempotent exactly on results with a four-digit year.
-/

theorem isDigit_digitChar {n : Nat} (h : n < 10) :
    isDigit (Nat.digitChar n) = true := by
  interval_cases n <;> rfl

theorem digitVal_digitChar {n : Nat} (h : n < 10) :
    digitVal (Nat.digitChar n) = n := by
  interval_cases n <;> rfl

theorem isSpace_digitChar {n : Nat} (h : n < 10) :
    isSpace (Nat.digitChar n) = false := by
  interval_cases n <;> rfl

theorem digitChar_ne_slash {n : Nat} (h : n < 10) : Nat.digitChar n ≠ '/' := by
  interval_cases n <;> decide

theorem findMonth_digit_names {n : Nat} (h : n < 10) (cs : List Char) :
    findMonth monthNames 1 (Nat.digitChar n :: cs) = none := by
  interval_cases n <;> exact rfl

theorem findMonth_digit_abbrs {n : Nat} (h : n < 10) (cs : List Char) :
    findMonth monthAbbrs 1 (Nat.digitChar n :: cs) = none := by
  interval_cases n <;> exact rfl

theorem fmtAlpha_digit_names {n : Nat} (h : n < 10) (comma : Bool) (cs : List Char) :
    fmtAlpha monthNames comma (Nat.digitChar n :: cs) = none := by
  unfold fmtAlpha
  rw [findMonth_digit_names h]

theorem fmtAlpha_digit_abbrs {n : Nat} (h : n < 10) (comma : Bool) (cs : List Char) :
    fmtAlpha monthAbbrs comma (Nat.digitChar n :: cs) = none := by
  unfold fmtAlpha
  rw [findMonth_digit_abbrs h]

theorem firstSome_cons_some {α : Type} {v : Nat} {r : List Char}
    {rest : List (Nat × List Char)} {k : Nat → List Char → Option α} {x : α}
    (h : k v r = some x) : firstSome ((v, r) :: rest) k = some x := by
  simp [firstSome, h]

theorem firstSome_eq_none {α : Type} {alts : List (Nat × List Char)}
    {k : Nat → List Char → Option α}
    (h : ∀ v r, (v, r) ∈ alts → k v r = none) : firstSome alts k = none := by
  induction alts with
  | nil => rfl
  | cons a rest ih =>
    obtain ⟨v, r⟩ := a
    have hk := h v r (by simp)
    simp only [firstSome, hk]
    exact ih fun v' r' hm => h v' r' (by simp [hm])

theorem fmt_mdy_none {c1 c2 c3 : Char} {rest : List Char}
    (h2 : c2 ≠ '/') (h3 : c3 ≠ '/') :
    fmt_mdy (c1 :: c2 :: c3 :: rest) = none := by
  unfold fmt_mdy
  apply firstSome_eq_none
  intro v r hm
  simp only [monthAlts] at hm
  rw [List.mem_append, List.mem_append] at hm
  rcases hm with (hm | hm) | hm
  · split at hm
    · simp at hm
      obtain ⟨-, hr⟩ := hm
      subst hr
      simp [h3]
    · simp at hm
  · split at hm
    · simp at hm
      obtain ⟨-, hr⟩ := hm
      subst hr
      simp [h3]
    · simp at hm
  · split at hm
    · simp at hm
      obtain ⟨-, hr⟩ := hm
      subst hr
      simp [h2]
    · simp at hm

theorem firstSome_monthAlts_pad2 {α : Type} {m : Nat} (h1 : 1 ≤ m) (h2 : m ≤ 12)
    (r : List Char) (k : Nat → List Char → Option α) {x : α}
    (hk : k m r = some x) :
    firstSome (monthAlts (pad2 m ++ r)) k = some x := by
  interval_cases m <;> exact firstSome_cons_some hk

theorem firstSome_dayAlts_pad2 {α : Type} {d : Nat} (h1 : 1 ≤ d) (h2 : d ≤ 31)
    (r : List Char) (k : Nat → List Char → Option α) {x : α}
    (hk : k d r = some x) :
    firstSome (dayAlts (pad2 d ++ r)) k = some x := by
  interval_cases d <;> exact firstSome_cons_some hk

theorem parse4Y_yearStr {y : Nat} (hy : 1000 ≤ y) (hy2 : y ≤ 9999) (r : List Char) :
    parse4Y (yearStr y ++ r) = some (y, r) := by
  unfold yearStr
  rw [if_pos hy]
  simp only [List.cons_append, List.nil_append]
  simp only [parse4Y]
  have h1 : y / 1000 < 10 := by omega
  have h2 : y / 100 % 10 < 10 := by omega
  have h3 : y / 10 % 10 < 10 := by omega
  have h4 : y % 10 < 10 := by omega
  rw [if_pos (by simp [isDigit_digitChar h1, isDigit_digitChar h2,
    isDigit_digitChar h3, isDigit_digitChar h4])]
  rw [digitVal_digitChar h1, digitVal_digitChar h2, digitVal_digitChar h3,
    digitVal_digitChar h4]
  have hval : 1000 * (y / 1000) + 100 * (y / 100 % 10) + 10 * (y / 10 % 10) +
      y % 10 = y := by omega
  rw [hval]

theorem strftime_shape {y m d : Nat} (hy : 1000 ≤ y) :
    strftimeYMD y m d =
      Nat.digitChar (y / 1000) :: Nat.digitChar (y / 100 % 10) ::
      Nat.digitChar (y / 10 % 10) :: Nat.digitChar (y % 10) ::
      '-' :: (pad2 m ++ '-' :: pad2 d) := by
  unfold strftimeYMD yearStr
  rw [if_pos hy]
  rfl

theorem fmt_iso_strftime {y m d : Nat} (hy : 1000 ≤ y) (hy2 : y ≤ 9999)
    (hm1 : 1 ≤ m) (hm2 : m ≤ 12) (hd1 : 1 ≤ d) (hd2 : d ≤ 31) :
    fmt_iso (strftimeYMD y m d) = some (y, m, d) := by
  unfold strftimeYMD fmt_iso
  rw [parse4Y_yearStr hy hy2]
  simp only [if_pos rfl]
  apply firstSome_monthAlts_pad2 hm1 hm2
  show firstSome (dayAlts (pad2 d))
    (fun dd r4 => if r4 = [] then some (y, m, dd) else none) = some (y, m, d)
  rw [← List.append_nil (pad2 d)]
  apply firstSome_dayAlts_pad2 hd1 hd2
  rfl

theorem daysInMonth_le (y m : Nat) : daysInMonth y m ≤ 31 := by
  unfold daysInMonth
  split_ifs <;> omega

theorem tryFormats_strftime {y m d : Nat} (hv : validDate y m d) (hy : 1000 ≤ y) :
    tryFormats (strftimeYMD y m d) = some (y, m, d) := by
  obtain ⟨hy1, hy2, hm1, hm2, hd1, hd2⟩ := hv
  have hd31 : d ≤ 31 := le_trans hd2 (daysInMonth_le y m)
  have hq : y / 1000 < 10 := by omega
  have h1 : ∀ comma, fmtAlpha monthNames comma (strftimeYMD y m d) = none := by
    intro comma
    rw [strftime_shape hy]
    exact fmtAlpha_digit_names hq comma _
  have h2 : ∀ comma, fmtAlpha monthAbbrs comma (strftimeYMD y m d) = none := by
    intro comma
    rw [strftime_shape hy]
    exact fmtAlpha_digit_abbrs hq comma _
  have h5 : fmt_mdy (strftimeYMD y m d) = none := by
    rw [strftime_shape hy]
    exact fmt_mdy_none (digitChar_ne_slash (by omega)) (digitChar_ne_slash (by omega))
  have h6 : fmt_iso (strftimeYMD y m d) = some (y, m, d) :=
    fmt_iso_strftime hy hy2 hm1 hm2 hd1 hd31
  have hchk : checkDate (y, m, d) = some (y, m, d) := by
    unfold checkDate
    exact if_pos ⟨hy1, hy2, hm1, hm2, hd1, hd2⟩
  simp [tryFormats, tryList, formatList, h1, h2, h5, h6, hchk]

theorem strip_eq_self {l : List Char}
    (h1 : ∀ c, l.head? = some c → isSpace c = false)
    (h2 : ∀ c, l.getLast? = some c → isSpace c = false) :
    strip l = l := by
  rw [strip_eq_rdrop]
  cases l with
  | nil => rfl
  | cons a tl =>
    have ha := h1 a rfl
    rw [List.dropWhile_cons, if_neg (by simp [ha])]
    rw [List.rdropWhile_eq_self_iff]
    intro hl
    have hg := List.getLast?_eq_getLast_of_ne_nil hl
    have := h2 _ hg
    simp [this]

theorem strip_strftime {y m d : Nat} (hy : 1000 ≤ y) (hy2 : y ≤ 9999) :
    strip (strftimeYMD y m d) = strftimeYMD y m d := by
  apply strip_eq_self
  · intro c hc
    rw [strftime_shape hy, List.head?_cons] at hc
    injection hc with hc
    subst hc
    exact isSpace_digitChar (by omega)
  · intro c hc
    have hgl : (strftimeYMD y m d).getLast? = ('-' :: pad2 d).getLast? := by
      rw [strftimeYMD, List.getLast?_append_cons, ← List.cons_append,
        List.getLast?_append_cons]
    have hpad : ∃ k, k < 10 ∧ ('-' :: pad2 d).getLast? = some (Nat.digitChar k) := by
      by_cases hd : d < 10
      · exact ⟨d, hd, by unfold pad2; rw [if_pos hd]; rfl⟩
      · exact ⟨d % 10, by omega, by unfold pad2; rw [if_neg hd]; rfl⟩
    obtain ⟨k, hk, hpe⟩ := hpad
    rw [hgl, hpe] at hc
    injection hc with hc
    subst hc
    exact isSpace_digitChar hk

theorem standardize_date_strftime {y m d : Nat} (hv : validDate y m d)
    (hy : 1000 ≤ y) :
    standardize_date (strftimeYMD y m d) = strftimeYMD y m d := by
  simp only [standardize_date]
  rw [strip_strftime hy hv.2.1, tryFormats_strftime hv hy]

/-- C7, counterexample: `"March 3, 0456"` normalizes (via `%B %d, %Y` with
the zero-padded 4-digit year `0456`) to `"456-03-03"`, whose 3-digit year no
longer matches `%Y-%m-%d` (nor anything else), so a second application of
`standardize_date` collapses the non-empty result to the empty sentinel —
normalization is not idempotent on all of its successes. -/
theorem C7_cex :
    standardize_date ("March 3, 0456".toList) = "456-03-03".toList ∧
    standardize_date (standardize_date ("March 3, 0456".toList)) = [] := by
  decide

/-- C7, amended: `standardize_date` is idempotent on every result of the
canonical 10-character form (equivalently, whenever the rendered year has
four digits, which `%Y-%m-%d` can re-parse); only results with a year below
1000 — rendered shorter than 10 characters — escape this. -/
theorem C7_idem_canonical (s : List Char)
    (h : (standardize_date s).length = 10) :
    standardize_date (standardize_date s) = standardize_date s := by
  have hne : standardize_date s ≠ [] := by
    intro he
    rw [he] at h
    simp at h
  obtain ⟨y, m, d, hv, he⟩ := standardize_date_shape hne
  have hy : 1000 ≤ y := by
    by_contra hy
    push_neg at hy
    rw [he, strftimeYMD_length] at h
    have := yearStr_length_le3 hy
    omega
  rw [he, standardize_date_strftime hv hy]

theorem C7_idem_canonical_w :
    standardize_date (standardize_date ("May 5 2004".toList)) =
      standardize_date ("May 5 2004".toList) :=
  C7_idem_canonical ("May 5 2004".toList) (by decide)

end MinutesConv
